import Mathlib

/-!
Verification development for the Kite tick collector
(`src/ec2_kite_collector.py`).

The Python source is shallowly embedded: pure computations become Lean
functions, the thread-shared tick buffer becomes explicit state passing
over traces of lock-atomic operations, pandas dataframes become lists of
records, and the filesystem side effects of the end-of-day consolidation
(temporary CSV files, the final Parquet artifact) become explicit fields
of an input/output state record.
-/

/-! ## Configuration constants (module-level configuration of the script) -/

def MARKET_OPEN_HOUR : Nat := 9
def MARKET_OPEN_MINUTE : Nat := 15
def MARKET_CLOSE_HOUR : Nat := 15
def MARKET_CLOSE_MINUTE : Nat := 30
def EOD_PROCESSING_HOUR : Nat := 15
def EOD_PROCESSING_MINUTE : Nat := 45
def CHUNK_SIZE : Nat := 15

/-- A wall-clock time of day expressed in microseconds since local midnight
(`datetime.time` compares component-wise, which is exactly the order on the
microsecond count). -/
def microsOfDay (h m : Nat) : Nat := ((h * 60 + m) * 60) * 1000000

/-- An IST wall-clock instant as observed by `datetime.datetime.now(IST)`:
the time of day (microseconds since midnight) and the weekday
(`datetime.weekday()` convention: 0 = Monday, ..., 6 = Sunday). -/
structure Wall where
  tod : Nat
  weekday : Nat
deriving DecidableEq, Repr

/-- Embedding of `is_market_open`: the current time lies in the inclusive
window `[09:15, 15:30]` and the weekday is Monday..Friday. -/
def is_market_open (w : Wall) : Bool :=
  (decide (microsOfDay MARKET_OPEN_HOUR MARKET_OPEN_MINUTE ≤ w.tod) &&
   decide (w.tod ≤ microsOfDay MARKET_CLOSE_HOUR MARKET_CLOSE_MINUTE)) &&
  decide (w.weekday < 5)

/-- Embedding of `is_eod_time`: the current time is strictly after the EOD
threshold `15:45`; the weekday of `now_ist` is never consulted. -/
def is_eod_time (w : Wall) : Bool :=
  decide (microsOfDay EOD_PROCESSING_HOUR EOD_PROCESSING_MINUTE < w.tod)

/-! ## Raw field values

A value of a numeric column as it sits in a temporary CSV / in-memory tick:
either an actual number, a non-numeric string, or missing (NaN).
`pd.to_numeric(col, errors := coerce).fillna(0)` sends `num q` to `q` and
everything else to `0`.  `drop_duplicates` treats NaN as equal to NaN, which
the equality of the `missing` constructor mirrors. -/

inductive RawVal where
  | num (q : Int)
  | str (s : String)
  | missing
deriving DecidableEq, Repr

/-- `pd.to_numeric(errors := coerce).fillna(0)` on one cell. -/
def coerceNum : RawVal → Int
  | RawVal.num q => q
  | RawVal.str _ => 0
  | RawVal.missing => 0

/-- `astype(int64)`: wrap an integer into the signed 64-bit range. -/
def wrap64 (z : Int) : Int := (z + 2 ^ 63) % 2 ^ 64 - 2 ^ 63

/-- `astype(int32)`: wrap an integer into the signed 32-bit range. -/
def wrap32 (z : Int) : Int := (z + 2 ^ 31) % 2 ^ 32 - 2 ^ 31

/-! ## Tick rows

`RawRow` is one row of a temporary CSV file, i.e. one `processed_tick`
dictionary built by `on_ticks` after the CSV round trip: the capture
timestamp (a microsecond-resolution instant plus the timezone-awareness flag
checked by the cleaning code), and all remaining columns in the order the
dictionary lists them. -/

structure RawRow where
  timestamp : Nat
  tz_aware : Bool
  instrument_token : Int
  trading_symbol : String
  instrument_type : String
  strike : RawVal
  expiry : String
  days_to_expiry : RawVal
  exchange : String
  name : String
  last_price : RawVal
  ohlc_open : RawVal
  ohlc_high : RawVal
  ohlc_low : RawVal
  ohlc_close : RawVal
  volume : RawVal
  oi : RawVal
  depth_buy : String
  depth_sell : String
deriving DecidableEq, Repr

/-- One row after the full cleaning of `process_eod_data`: every numeric
column coerced to a number, `instrument_token` a 64-bit integer,
`days_to_expiry` a 32-bit integer. -/
structure CleanRow where
  timestamp : Nat
  instrument_token : Int
  trading_symbol : String
  instrument_type : String
  strike : Int
  expiry : String
  days_to_expiry : Int
  exchange : String
  name : String
  last_price : Int
  ohlc_open : Int
  ohlc_high : Int
  ohlc_low : Int
  ohlc_close : Int
  volume : Int
  oi : Int
  depth_buy : String
  depth_sell : String
deriving DecidableEq, Repr

/-- `pd.to_datetime` + `tz_convert(IST)` / `tz_localize(IST)`: both branches
leave the microsecond instant unchanged and produce a timezone-aware value. -/
def localizeRow (r : RawRow) : RawRow := { r with tz_aware := true }

/-- The numeric-normalization block of `process_eod_data`, applied to one
row: coerce the eight `numeric_columns` with `fillna(0)`, cast
`instrument_token` to int64 and `days_to_expiry` to int32. -/
def cleanRow (r : RawRow) : CleanRow :=
  { timestamp := r.timestamp
    instrument_token := wrap64 r.instrument_token
    trading_symbol := r.trading_symbol
    instrument_type := r.instrument_type
    strike := coerceNum r.strike
    expiry := r.expiry
    days_to_expiry := wrap32 (coerceNum r.days_to_expiry)
    exchange := r.exchange
    name := r.name
    last_price := coerceNum r.last_price
    ohlc_open := coerceNum r.ohlc_open
    ohlc_high := coerceNum r.ohlc_high
    ohlc_low := coerceNum r.ohlc_low
    ohlc_close := coerceNum r.ohlc_close
    volume := coerceNum r.volume
    oi := coerceNum r.oi
    depth_buy := r.depth_buy
    depth_sell := r.depth_sell }

/-- The sort key of `sort_values(by := [timestamp, instrument_token])` on raw
rows. -/
def keyLeRaw (a b : RawRow) : Prop :=
  a.timestamp < b.timestamp ∨
    (a.timestamp = b.timestamp ∧ a.instrument_token ≤ b.instrument_token)

instance : DecidableRel keyLeRaw := fun a b => by
  unfold keyLeRaw; infer_instance

instance : IsTotal RawRow keyLeRaw where
  total a b := by
    rcases Nat.lt_trichotomy a.timestamp b.timestamp with h | h | h
    · exact Or.inl (Or.inl h)
    · rcases le_total a.instrument_token b.instrument_token with h2 | h2
      · exact Or.inl (Or.inr ⟨h, h2⟩)
      · exact Or.inr (Or.inr ⟨h.symm, h2⟩)
    · exact Or.inr (Or.inl h)

instance : IsTrans RawRow keyLeRaw where
  trans a b c hab hbc := by
    rcases hab with h1 | ⟨h1, h1a⟩ <;> rcases hbc with h2 | ⟨h2, h2a⟩
    · exact Or.inl (h1.trans h2)
    · exact Or.inl (h2 ▸ h1)
    · exact Or.inl (h1 ▸ h2)
    · exact Or.inr ⟨h1.trans h2, h1a.trans h2a⟩

/-- The same sort key on fully cleaned rows (used only to state the
spec-ordered variant of the pipeline). -/
def keyLeClean (a b : CleanRow) : Prop :=
  a.timestamp < b.timestamp ∨
    (a.timestamp = b.timestamp ∧ a.instrument_token ≤ b.instrument_token)

instance : DecidableRel keyLeClean := fun a b => by
  unfold keyLeClean; infer_instance

/-! ## `drop_duplicates`

Pandas `drop_duplicates()` keeps the first occurrence of each exact-equal
row and preserves the order of survivors.  `dd_aux l seen` processes `l`
left to right, skipping any element already emitted. -/

def dd_aux {α : Type} [DecidableEq α] : List α → List α → List α
  | [], _ => []
  | a :: l, seen =>
    if a ∈ seen then dd_aux l seen else a :: dd_aux l (a :: seen)

def drop_duplicates {α : Type} [DecidableEq α] (l : List α) : List α :=
  dd_aux l []

theorem mem_dd_aux {α : Type} [DecidableEq α] (l : List α) :
    ∀ (seen : List α) (a : α), a ∈ dd_aux l seen ↔ a ∈ l ∧ a ∉ seen := by
  induction l with
  | nil => intro seen a; simp [dd_aux]
  | cons b l ih =>
    intro seen a
    by_cases hb : b ∈ seen
    · simp only [dd_aux, if_pos hb, ih]
      constructor
      · rintro ⟨h1, h2⟩; exact ⟨List.mem_cons_of_mem _ h1, h2⟩
      · rintro ⟨h1, h2⟩
        rcases List.mem_cons.mp h1 with rfl | h1
        · exact absurd hb h2
        · exact ⟨h1, h2⟩
    · simp only [dd_aux, if_neg hb, List.mem_cons, ih]
      constructor
      · rintro (rfl | ⟨h1, h2⟩)
        · exact ⟨Or.inl rfl, hb⟩
        · exact ⟨Or.inr h1, fun hs => h2 (Or.inr hs)⟩
      · rintro ⟨rfl | h1, h2⟩
        · exact Or.inl rfl
        · by_cases hab : a = b
          · exact Or.inl hab
          · exact Or.inr ⟨h1, fun hs => by
              rcases hs with h | h
              · exact hab h
              · exact h2 h⟩

theorem nodup_dd_aux {α : Type} [DecidableEq α] (l : List α) :
    ∀ seen : List α, (dd_aux l seen).Nodup := by
  induction l with
  | nil => intro seen; simp [dd_aux]
  | cons b l ih =>
    intro seen
    by_cases hb : b ∈ seen
    · simpa [dd_aux, if_pos hb] using ih seen
    · simp only [dd_aux, if_neg hb]
      refine List.nodup_cons.mpr ⟨fun hmem => ?_, ih (b :: seen)⟩
      exact ((mem_dd_aux l (b :: seen) b).mp hmem).2 (List.mem_cons_self b _)

theorem dd_aux_sublist {α : Type} [DecidableEq α] (l : List α) :
    ∀ seen : List α, (dd_aux l seen).Sublist l := by
  induction l with
  | nil => intro seen; simp [dd_aux]
  | cons b l ih =>
    intro seen
    by_cases hb : b ∈ seen
    · simpa [dd_aux, if_pos hb] using (ih seen).trans (List.sublist_cons_self b l)
    · simpa [dd_aux, if_neg hb] using List.Sublist.cons₂ b (ih (b :: seen))

theorem mem_drop_duplicates {α : Type} [DecidableEq α] (l : List α) (a : α) :
    a ∈ drop_duplicates l ↔ a ∈ l := by
  simpa [drop_duplicates] using mem_dd_aux l [] a

theorem nodup_drop_duplicates {α : Type} [DecidableEq α] (l : List α) :
    (drop_duplicates l).Nodup := nodup_dd_aux l []

theorem drop_duplicates_sublist {α : Type} [DecidableEq α] (l : List α) :
    (drop_duplicates l).Sublist l := dd_aux_sublist l []

/-! ## The per-chunk cleaning pipeline of `process_eod_data`

The code's order of operations on one chunk dataframe is:
timestamp localization, then `sort_values(by := [timestamp,
instrument_token])`, then `drop_duplicates()`, and only afterwards the
numeric coercions and integer casts. -/

/-- Localize, sort, dedup — the part of the chunk pipeline that runs before
any numeric normalization. -/
def dedup_sorted (rows : List RawRow) : List RawRow :=
  drop_duplicates (List.insertionSort keyLeRaw (rows.map localizeRow))

/-- The chunk pipeline exactly as the code performs it: dedup on raw
(localized) rows first, numeric normalization afterwards. -/
def process_chunk (rows : List RawRow) : List CleanRow :=
  (dedup_sorted rows).map cleanRow

/-- The chunk pipeline in the order the specification describes it:
normalize types first, then sort, then drop exact duplicates.  Stated only
to compare with `process_chunk`. -/
def process_chunk_spec_order (rows : List RawRow) : List CleanRow :=
  drop_duplicates
    (List.insertionSort keyLeClean ((rows.map localizeRow).map cleanRow))

/-! ## `on_ticks`

`on_ticks` takes the capture timestamp once (`datetime.datetime.now(IST)`)
before iterating the delivered batch, then, holding `data_lock`, maps every
raw tick payload into a `processed_tick` dictionary and appends it to
`in_memory_ticks`. -/

/-- One entry of `instrument_mapping`. -/
structure InstrumentDetails where
  trading_symbol : String
  instrument_type : String
  strike : RawVal
  expiry : String
  days_to_expiry : RawVal
  exchange : String
  name : String
deriving DecidableEq, Repr

/-- The `instrument_details` defaults used when the token is absent from
`instrument_mapping` (`.get(token, {})` followed by per-field defaults). -/
def defaultDetails : InstrumentDetails :=
  { trading_symbol := ""
    instrument_type := ""
    strike := RawVal.num 0
    expiry := ""
    days_to_expiry := RawVal.num 0
    exchange := ""
    name := "" }

/-- One raw tick payload as delivered by the feed: the fields `on_ticks`
reads from the tick dictionary (depth blobs already serialized). -/
structure KTick where
  instrument_token : Int
  last_price : RawVal
  ohlc_open : RawVal
  ohlc_high : RawVal
  ohlc_low : RawVal
  ohlc_close : RawVal
  volume : RawVal
  oi : RawVal
  depth_buy : String
  depth_sell : String
deriving DecidableEq, Repr

/-- Building one `processed_tick` dictionary from the shared timestamp, the
instrument directory and one raw payload. -/
def processTick (timestamp : Nat) (mapping : Int → Option InstrumentDetails)
    (t : KTick) : RawRow :=
  let d := (mapping t.instrument_token).getD defaultDetails
  { timestamp := timestamp
    tz_aware := true
    instrument_token := t.instrument_token
    trading_symbol := d.trading_symbol
    instrument_type := d.instrument_type
    strike := d.strike
    expiry := d.expiry
    days_to_expiry := d.days_to_expiry
    exchange := d.exchange
    name := d.name
    last_price := t.last_price
    ohlc_open := t.ohlc_open
    ohlc_high := t.ohlc_high
    ohlc_low := t.ohlc_low
    ohlc_close := t.ohlc_close
    volume := t.volume
    oi := t.oi
    depth_buy := t.depth_buy
    depth_sell := t.depth_sell }

/-- Embedding of one `on_ticks` invocation: the new buffer contents after
the callback returns. -/
def on_ticks (now : Nat) (mapping : Int → Option InstrumentDetails)
    (ticks : List KTick) (buffer : List RawRow) : List RawRow :=
  buffer ++ ticks.map (processTick now mapping)

/-! ## Temporary files and the consolidation loop

A temporary CSV file in `TEMP_DATA_DIR` either reads back as a list of rows
or raises in `pd.read_csv` (modelled as `corrupt`). -/

inductive TempFile where
  | ok (rows : List RawRow)
  | corrupt
deriving DecidableEq, Repr

/-- The per-chunk file-reading loop: corrupt files are logged and skipped
(`continue`), readable files contribute their rows in file order. -/
def readRows (files : List TempFile) : List RawRow :=
  (files.map fun f =>
    match f with
    | TempFile.ok rows => rows
    | TempFile.corrupt => []).flatten

/-- `range(0, len(temp_files), CHUNK_SIZE)` slicing: split a list into
consecutive groups of `n` (the last group may be shorter).  `acc` holds the
current group in reverse. -/
def chunksGo {α : Type} (n : Nat) : List α → List α → List (List α)
  | [], acc => if acc.isEmpty then [] else [acc.reverse]
  | x :: xs, acc =>
    if acc.length + 1 = n then (x :: acc).reverse :: chunksGo n xs []
    else chunksGo n xs (x :: acc)

def chunksOf {α : Type} (n : Nat) (l : List α) : List (List α) :=
  chunksGo n l []

/-- What one chunk adds to the Parquet writer: nothing when every file of
the chunk failed to read or read back empty, nothing when the chunk's
processing raises (`fails i = true`, caught by the per-chunk `except`), and
the cleaned rows otherwise. -/
def chunkContribution (fails : Nat → Bool) (i : Nat) (cf : List TempFile) :
    List CleanRow :=
  if (readRows cf).isEmpty then []
  else if fails i then []
  else process_chunk (readRows cf)

/-- The chunk loop of `process_eod_data` acting on the writer state:
`none` = writer never opened, `some rows` = rows written so far.  A chunk
with no readable data hits the `continue` after loading; an exception while
processing a chunk is caught and the loop continues; otherwise the writer
is opened if necessary and the cleaned chunk appended. -/
def eodLoop (fails : Nat → Bool) :
    List (Nat × List TempFile) → Option (List CleanRow) →
    Option (List CleanRow)
  | [], w => w
  | (i, cf) :: rest, w =>
    if (readRows cf).isEmpty then eodLoop fails rest w
    else if fails i then eodLoop fails rest w
    else eodLoop fails rest (some (w.getD [] ++ process_chunk (readRows cf)))

/-- The filesystem/buffer state consumed by `process_eod_data`: the shared
in-memory tick buffer and the `.csv` files of `TEMP_DATA_DIR` in sorted
filename order. -/
structure EodInput where
  buffer : List RawRow
  temp_files : List TempFile
deriving Repr

/-- The observable outcome of `process_eod_data`: the buffer afterwards,
the `.csv` files of `TEMP_DATA_DIR` afterwards, and the sealed Parquet
artifact (`none` when the writer was never opened and no file is
produced). -/
structure EodOutput where
  buffer : List RawRow
  temp_files : List TempFile
  artifact : Option (List CleanRow)
deriving Repr

/-- The final pre-consolidation drain: a nonempty buffer is snapshotted,
cleared, and written as one more temporary file (named `ticks_last_flush_…`,
which sorts after the `ticks_<digits>…` files). -/
def finalFlushFiles (buffer : List RawRow) : List TempFile :=
  if buffer.isEmpty then [] else [TempFile.ok buffer]

/-- Embedding of `process_eod_data`: drain the buffer into one last
temporary file, enumerate all `.csv` files in sorted order, process them in
chunks of `CHUNK_SIZE`, and seal the writer.  No temporary file is ever
removed by the function. -/
def process_eod_data (fails : Nat → Bool) (inp : EodInput) : EodOutput :=
  let files := inp.temp_files ++ finalFlushFiles inp.buffer
  if files.isEmpty then
    { buffer := [], temp_files := files, artifact := none }
  else
    { buffer := []
      temp_files := files
      artifact := eodLoop fails ((chunksOf CHUNK_SIZE files).enum) none }

/-! ## `save_periodic_data` (the periodic flusher)

Each cycle of the flusher loop sleeps, then under `data_lock` snapshots and
clears `in_memory_ticks`; an empty buffer skips the cycle with no I/O, a
nonempty snapshot is written to one new timestamp-named temporary file, and
a write failure is logged while the loop simply proceeds to the next
cycle.  A cycle is modelled by the ticks appended to the buffer since the
previous drain together with whether the write succeeds. -/

structure FlushCycle where
  incoming : List RawRow
  write_ok : Bool

/-- One iteration of the flusher loop body acting on
(buffer, temporary files written so far). -/
def save_periodic_step (c : FlushCycle) (s : List RawRow × List TempFile) :
    List RawRow × List TempFile :=
  let buf := s.1 ++ c.incoming
  if buf.isEmpty then ([], s.2)
  else ([], if c.write_ok then s.2 ++ [TempFile.ok buf] else s.2)

/-- The flusher loop over a finite schedule of cycles (the loop runs until
`shutdown_event` is set; the schedule lists the cycles that happen before
that). -/
def save_periodic_data (cycles : List FlushCycle)
    (s : List RawRow × List TempFile) : List RawRow × List TempFile :=
  cycles.foldl (fun s c => save_periodic_step c s) s

/-! ## The shared tick buffer as a trace of lock-atomic operations

`in_memory_ticks` is touched only inside `with data_lock:` blocks: the
append loop of `on_ticks`, and the snapshot-and-clear in
`save_periodic_data` / `process_eod_data`.  A concurrent execution is
therefore an interleaving, i.e. a finite sequence of atomic `append` and
`drain` operations. -/

inductive BufOp (α : Type) where
  | append (r : α)
  | drain
deriving DecidableEq, Repr

/-- Run a trace of buffer operations: returns the final buffer contents and
the list of drained snapshots in order. -/
def runOps {α : Type} : List (BufOp α) → List α → List α × List (List α)
  | [], buf => (buf, [])
  | BufOp.append r :: ops, buf => runOps ops (buf ++ [r])
  | BufOp.drain :: ops, buf =>
    let rest := runOps ops []
    (rest.1, buf :: rest.2)

/-- The records appended by a trace, in order. -/
def appendedRecords {α : Type} : List (BufOp α) → List α
  | [] => []
  | BufOp.append r :: ops => r :: appendedRecords ops
  | BufOp.drain :: ops => appendedRecords ops

/-! ## `market_session_manager`

The manager loop wakes up, reads the clock, skips weekend iterations after
a long sleep, and on a weekday past the EOD threshold — with
`shutdown_event` not yet set — disconnects the feed, sets `shutdown_event`
and `break`s out of the loop.  The loop is modelled over the finite list of
clock values it observes; the result counts how many times the shutdown
sequence (disconnect + set + break) runs, together with the final state of
`shutdown_event`. -/

def market_session_manager : List Wall → Bool → Bool × Nat
  | [], sd => (sd, 0)
  | w :: rest, sd =>
    if sd then (sd, 0)
    else if 5 ≤ w.weekday then market_session_manager rest sd
    else if is_eod_time w then
      if sd then market_session_manager rest sd
      else (true, 1)
    else market_session_manager rest sd

/-! ## The startup dispatch of `__main__`

After credentials are fetched and the Kite clients are constructed, the
main block checks `is_eod_time()`: if it already holds, it runs
`process_eod_data` once and exits without ever calling
`wait_for_market_open` or `kws.connect()`; otherwise it waits for the
market to open and (possibly) proceeds to connect. -/

inductive MainEvent where
  | run_eod
  | exit_process
  | enter_wait_for_open
  | connect_feed
deriving DecidableEq, Repr

/-- The trace of startup events of `__main__` as a function of the clock at
startup; `rest` abstracts whatever the non-EOD path goes on to do (it
depends on how the clock evolves while waiting). -/
def main_start_trace (w : Wall) (rest : List MainEvent) : List MainEvent :=
  if is_eod_time w then [MainEvent.run_eod, MainEvent.exit_process]
  else MainEvent.enter_wait_for_open :: rest

/-! ## `upload_to_s3`

The function uploads the file, and on success logs both the upload and
`Removed local file: …` — but contains no removal call, so the local file
survives in every case.  On failure the exception is caught and logged. -/

structure UploadOutcome where
  uploaded : Bool
  local_file_exists : Bool
  logged_removed : Bool
deriving DecidableEq, Repr

/-- Embedding of `upload_to_s3` on a present local file, parametrized by
whether `s3_client.upload_file` succeeds. -/
def upload_to_s3 (upload_succeeds : Bool) : UploadOutcome :=
  if upload_succeeds then
    { uploaded := true, local_file_exists := true, logged_removed := true }
  else
    { uploaded := false, local_file_exists := true, logged_removed := false }

/-! ## Helper lemmas -/

/-- Rows actually written to the Parquet file (none when the writer was
never opened). -/
def optRows (w : Option (List CleanRow)) : List CleanRow := w.getD []

theorem eodLoop_eq (fails : Nat → Bool) (cs : List (Nat × List TempFile)) :
    ∀ w, optRows (eodLoop fails cs w) =
      optRows w ++
        (cs.map (fun p => chunkContribution fails p.1 p.2)).flatten := by
  induction cs with
  | nil => intro w; simp [eodLoop]
  | cons p rest ih =>
    intro w
    obtain ⟨i, cf⟩ := p
    by_cases h1 : (readRows cf).isEmpty
    · simp only [eodLoop, if_pos h1, ih, List.map_cons, List.flatten_cons,
        chunkContribution]
      simp [h1]
    · by_cases h2 : fails i
      · simp only [eodLoop, if_neg h1, if_pos h2, ih, List.map_cons,
          List.flatten_cons, chunkContribution]
        simp [h1, h2]
      · simp only [eodLoop, if_neg h1, if_neg h2, ih, List.map_cons,
          List.flatten_cons, chunkContribution]
        simp [h1, h2, optRows, List.append_assoc]

theorem runOps_conservation {α : Type} (ops : List (BufOp α)) :
    ∀ buf : List α,
      (runOps ops buf).2.flatten ++ (runOps ops buf).1 =
        buf ++ appendedRecords ops := by
  induction ops with
  | nil => intro buf; simp [runOps, appendedRecords]
  | cons op ops ih =>
    intro buf
    cases op with
    | append r =>
      simp only [runOps, appendedRecords]
      rw [ih (buf ++ [r]), List.append_assoc]
      rfl
    | drain =>
      simp only [runOps, appendedRecords, List.flatten_cons, List.append_assoc]
      rw [ih []]
      rfl

theorem runOps_final_empty_of_last_drain {α : Type} (ops : List (BufOp α)) :
    ∀ buf : List α, (runOps (ops ++ [BufOp.drain]) buf).1 = [] := by
  induction ops with
  | nil => intro buf; simp [runOps]
  | cons op ops ih =>
    intro buf
    cases op with
    | append r => simpa [runOps] using ih (buf ++ [r])
    | drain => simpa [runOps] using ih []

/-! ## Claim theorems -/

/-- C3: for every sequence of lock-atomic `append` operations (the
`on_ticks` critical section) interleaved with `drain` operations (the
snapshot-and-clear of `save_periodic_data` / `process_eod_data`), the
multiset union of all drained snapshots plus whatever is still buffered
equals the multiset of all appended records — no appended record is lost
and none is returned by more than one drain; when the trace ends with a
drain (the final EOD drain), the union of the drains alone equals the
appended records. -/
theorem c3_drain_conservation {α : Type} (ops : List (BufOp α)) :
    Multiset.ofList (runOps ops []).2.flatten +
        Multiset.ofList (runOps ops []).1 =
      Multiset.ofList (appendedRecords ops) ∧
    ((∃ pre, ops = pre ++ [BufOp.drain]) →
      Multiset.ofList (runOps ops []).2.flatten =
        Multiset.ofList (appendedRecords ops)) := by
  have hlist := runOps_conservation ops []
  simp only [List.nil_append] at hlist
  constructor
  · rw [Multiset.coe_add]
    exact congrArg Multiset.ofList hlist
  · rintro ⟨pre, rfl⟩
    have hfin := runOps_final_empty_of_last_drain pre ([] : List α)
    rw [hfin] at hlist
    rw [List.append_nil] at hlist
    exact congrArg Multiset.ofList hlist

theorem c3_drain_conservation_witness :
    Multiset.ofList
        (runOps [BufOp.append 1, BufOp.append 2, BufOp.drain,
          BufOp.append 3, BufOp.drain] ([] : List Nat)).2.flatten =
      Multiset.ofList
        (appendedRecords [BufOp.append 1, BufOp.append 2, BufOp.drain,
          BufOp.append 3, BufOp.drain]) :=
  (c3_drain_conservation
      [BufOp.append 1, BufOp.append 2, BufOp.drain, BufOp.append 3,
        BufOp.drain]).2
    ⟨[BufOp.append 1, BufOp.append 2, BufOp.drain, BufOp.append 3], rfl⟩

/-- C6: however many loop iterations of `market_session_manager` observe
that the EOD threshold has been reached, the shutdown sequence (feed
disconnect, setting `shutdown_event`, `break`ing out of the loop) runs at
most once — and exactly once as soon as some observed weekday clock value
is past the threshold (weekend iterations `continue` before the EOD
check). -/
theorem c6_eod_shutdown_exactly_once (ws : List Wall) (sd : Bool) :
    (market_session_manager ws sd).2 ≤ 1 ∧
      (sd = false →
        (∃ w ∈ ws, w.weekday < 5 ∧ is_eod_time w = true) →
        (market_session_manager ws sd).2 = 1 ∧
          (market_session_manager ws sd).1 = true) := by
  induction ws with
  | nil =>
    refine ⟨by simp [market_session_manager], ?_⟩
    rintro - ⟨w, hw, -⟩
    exact absurd hw (List.not_mem_nil w)
  | cons w rest ih =>
    by_cases hsd : sd
    · refine ⟨by simp [market_session_manager, hsd], ?_⟩
      intro hfalse
      rw [hfalse] at hsd
      exact absurd hsd Bool.false_ne_true
    · have hsd' : sd = false := Bool.eq_false_iff.mpr hsd
      subst hsd'
      by_cases hwk : 5 ≤ w.weekday
      · have heq : market_session_manager (w :: rest) false =
            market_session_manager rest false := by
          simp [market_session_manager, hwk]
        refine ⟨heq ▸ ih.1, ?_⟩
        rintro - ⟨w1, hw1, hlt, heod⟩
        rcases List.mem_cons.mp hw1 with rfl | hw1
        · omega
        · exact heq ▸ ih.2 rfl ⟨w1, hw1, hlt, heod⟩
      · by_cases heod : is_eod_time w
        · have heq : market_session_manager (w :: rest) false = (true, 1) := by
            simp [market_session_manager, hwk, heod]
          exact ⟨by simp [heq], fun _ _ => by simp [heq]⟩
        · have heq : market_session_manager (w :: rest) false =
              market_session_manager rest false := by
            simp [market_session_manager, hwk, heod]
          refine ⟨heq ▸ ih.1, ?_⟩
          rintro - ⟨w1, hw1, hlt, heod1⟩
          rcases List.mem_cons.mp hw1 with rfl | hw1
          · rw [heod1] at heod
            exact absurd rfl heod
          · exact heq ▸ ih.2 rfl ⟨w1, hw1, hlt, heod1⟩

theorem c6_eod_shutdown_witness :
    (market_session_manager
        [⟨0, 6⟩, ⟨microsOfDay 16 0, 0⟩, ⟨microsOfDay 16 30, 1⟩,
          ⟨microsOfDay 17 0, 2⟩] false).2 = 1 ∧
      (market_session_manager
        [⟨0, 6⟩, ⟨microsOfDay 16 0, 0⟩, ⟨microsOfDay 16 30, 1⟩,
          ⟨microsOfDay 17 0, 2⟩] false).1 = true :=
  (c6_eod_shutdown_exactly_once
      [⟨0, 6⟩, ⟨microsOfDay 16 0, 0⟩, ⟨microsOfDay 16 30, 1⟩,
        ⟨microsOfDay 17 0, 2⟩] false).2 rfl
    ⟨⟨microsOfDay 16 0, 0⟩, by decide, by decide, by decide⟩

/-- C7: across any schedule of flusher cycles, starting from an empty
buffer, the loop never stops early and the buffer is left empty: exactly
the cycles whose drain was nonempty and whose write succeeded produce one
temporary file each (an empty drain does no I/O), a failed write leaves the
file set unchanged (the snapshot is lost, not retried), and cycles after a
failure are processed normally. -/
theorem c7_flusher_failure_isolation (cycles : List FlushCycle)
    (files0 : List TempFile) :
    save_periodic_data cycles ([], files0) =
      ([], files0 ++
        ((cycles.filter fun c => !c.incoming.isEmpty && c.write_ok).map
          fun c => TempFile.ok c.incoming)) := by
  induction cycles generalizing files0 with
  | nil => simp [save_periodic_data]
  | cons c rest ih =>
    have hstep : save_periodic_data (c :: rest) ([], files0) =
        save_periodic_data rest (save_periodic_step c ([], files0)) := rfl
    by_cases hinc : c.incoming.isEmpty
    · have h1 : save_periodic_step c ([], files0) = ([], files0) := by
        simp [save_periodic_step, hinc]
      rw [hstep, h1, ih]
      simp [List.filter_cons, hinc]
    · by_cases hok : c.write_ok
      · have h1 : save_periodic_step c ([], files0) =
            ([], files0 ++ [TempFile.ok c.incoming]) := by
          simp [save_periodic_step, hinc, hok]
        rw [hstep, h1, ih]
        simp [List.filter_cons, hinc, hok]
      · have h1 : save_periodic_step c ([], files0) = ([], files0) := by
          simp [save_periodic_step, hinc, hok]
        rw [hstep, h1, ih]
        simp [List.filter_cons, hinc, hok]

/-- C8: `upload_to_s3` never removes the local file.  Evaluating the
function at a successful upload shows the local FinalArtifact still exists
even though the function logs `Removed local file`; on failure the file
also remains.  This contradicts the claim that the local copy is removed
exactly when the upload succeeds (the code logs the removal but contains no
removal call). -/
theorem c8_upload_never_removes_local_file :
    (upload_to_s3 true).uploaded = true ∧
      (upload_to_s3 true).local_file_exists = true ∧
      (upload_to_s3 true).logged_removed = true ∧
      (upload_to_s3 false).local_file_exists = true :=
  ⟨rfl, rfl, rfl, rfl⟩

/-- C4: when the process starts past the EOD threshold, the `__main__`
dispatch runs the consolidation exactly once and exits, never reaching
`wait_for_market_open` (the waiting/ACTIVE phase) and never calling
`kws.connect()`. -/
theorem c4_start_past_eod_runs_consolidation_once (w : Wall)
    (rest : List MainEvent) (h : is_eod_time w = true) :
    main_start_trace w rest = [MainEvent.run_eod, MainEvent.exit_process] ∧
      (main_start_trace w rest).count MainEvent.run_eod = 1 ∧
      MainEvent.enter_wait_for_open ∉ main_start_trace w rest ∧
      MainEvent.connect_feed ∉ main_start_trace w rest := by
  have ht : main_start_trace w rest =
      [MainEvent.run_eod, MainEvent.exit_process] := by
    simp [main_start_trace, h]
  refine ⟨ht, ?_, ?_, ?_⟩ <;> rw [ht] <;> decide

theorem c4_start_past_eod_witness :
    is_eod_time ⟨microsOfDay 16 0, 2⟩ = true ∧
      main_start_trace ⟨microsOfDay 16 0, 2⟩ [MainEvent.connect_feed] =
        [MainEvent.run_eod, MainEvent.exit_process] :=
  ⟨by decide,
    (c4_start_past_eod_runs_consolidation_once ⟨microsOfDay 16 0, 2⟩
        [MainEvent.connect_feed] (by decide)).1⟩

/-- C10: `is_eod_time` holds exactly when the IST time of day is strictly
after 15:45, with no dependence on the weekday, while `is_market_open`
additionally requires a weekday of Monday..Friday; hence a start after
15:45 on a weekend day still takes the run-consolidation-and-exit path. -/
theorem c10_eod_independent_of_weekday (w w2 : Wall)
    (rest : List MainEvent) :
    (is_eod_time w = true ↔
        microsOfDay EOD_PROCESSING_HOUR EOD_PROCESSING_MINUTE < w.tod) ∧
      (w.tod = w2.tod → is_eod_time w = is_eod_time w2) ∧
      (is_market_open w = true → w.weekday < 5) ∧
      (5 ≤ w.weekday →
        microsOfDay EOD_PROCESSING_HOUR EOD_PROCESSING_MINUTE < w.tod →
        is_market_open w = false ∧ is_eod_time w = true ∧
          main_start_trace w rest =
            [MainEvent.run_eod, MainEvent.exit_process]) := by
  refine ⟨by simp [is_eod_time], ?_, ?_, ?_⟩
  · intro h; simp [is_eod_time, h]
  · intro h
    simp only [is_market_open, Bool.and_eq_true, decide_eq_true_eq] at h
    exact h.2
  · intro hwk htod
    have heod : is_eod_time w = true := by simp [is_eod_time, htod]
    have hwk5 : decide (w.weekday < 5) = false := by
      simp [decide_eq_false_iff_not]; omega
    refine ⟨by simp [is_market_open, hwk5], heod, by simp [main_start_trace, heod]⟩

theorem c10_eod_independent_of_weekday_witness :
    is_market_open ⟨microsOfDay 16 0, 5⟩ = false ∧
      is_eod_time ⟨microsOfDay 16 0, 5⟩ = true ∧
      main_start_trace ⟨microsOfDay 16 0, 5⟩ [] =
        [MainEvent.run_eod, MainEvent.exit_process] :=
  (c10_eod_independent_of_weekday ⟨microsOfDay 16 0, 5⟩
      ⟨microsOfDay 16 0, 3⟩ []).2.2.2 (by decide) (by decide)

/-- A concrete tick row used by the concrete instances below. -/
def sampleRow : RawRow :=
  { timestamp := 1000000
    tz_aware := true
    instrument_token := 1001
    trading_symbol := ""
    instrument_type := ""
    strike := RawVal.num 0
    expiry := ""
    days_to_expiry := RawVal.num 7
    exchange := ""
    name := ""
    last_price := RawVal.num 100
    ohlc_open := RawVal.num 0
    ohlc_high := RawVal.num 0
    ohlc_low := RawVal.num 0
    ohlc_close := RawVal.num 0
    volume := RawVal.num 0
    oi := RawVal.num 0
    depth_buy := ""
    depth_sell := "" }

/-- A readable one-row temporary file built from `sampleRow`. -/
def sampleFile : TempFile := TempFile.ok [sampleRow]

/-- `sampleRow` with the volume cell missing (NaN in the CSV). -/
def sampleRowMissingVol : RawRow := { sampleRow with volume := RawVal.missing }

/-- C1 counterexample: the code deduplicates before the numeric
normalization, so two rows that are identical in every field after
normalization need not collapse.  With one row carrying volume `0` and an
otherwise identical row whose volume cell is missing, the normalized rows
are equal, yet the chunk pipeline as coded keeps both rows, while the
pipeline in the claim's normalize-first order keeps one. -/
theorem c1_dedup_before_normalization_counterexample :
    cleanRow (localizeRow sampleRow) = cleanRow (localizeRow sampleRowMissingVol) ∧
      sampleRow ≠ sampleRowMissingVol ∧
      (process_chunk [sampleRow, sampleRowMissingVol]).length = 2 ∧
      (process_chunk_spec_order [sampleRow, sampleRowMissingVol]).length = 1 := by
  decide

/-- C1 (amended): per chunk the code first localizes timestamps to IST,
then sorts by `(capture_time, instrument_id)`, then drops exact-duplicate
rows by raw (pre-coercion) field equality, and only afterwards applies the
numeric normalization (coercion of missing/non-numeric cells to 0, int64 /
int32 casts): the output is the normalization image of a sorted,
duplicate-free list holding exactly the localized input rows — so rows
identical in every raw field collapse to one, and rows differing in any
raw field, in particular only by a microsecond of timestamp, all remain
distinct. -/
theorem c1_chunk_dedup_amended (chunk : List RawRow) :
    ∃ l : List RawRow,
      process_chunk chunk = l.map cleanRow ∧
        l.Nodup ∧
        (∀ r, r ∈ l ↔ r ∈ chunk.map localizeRow) ∧
        List.Sorted keyLeRaw l := by
  refine ⟨dedup_sorted chunk, rfl, nodup_drop_duplicates _, ?_, ?_⟩
  · intro r
    rw [dedup_sorted, mem_drop_duplicates, List.mem_insertionSort]
  · exact List.Pairwise.sublist (drop_duplicates_sublist _)
      (List.sorted_insertionSort keyLeRaw _)

/-- C2 counterexample: a run of `process_eod_data` over one readable
temporary file leaves that file in `TEMP_DATA_DIR` (the function contains
no deletion), and a second call with an empty buffer over the resulting
directory produces a FinalArtifact again instead of finding nothing to
process. -/
theorem c2_no_deletion_counterexample :
    (process_eod_data (fun _ => false) ⟨[], [sampleFile]⟩).temp_files =
        [sampleFile] ∧
      (process_eod_data (fun _ => false) ⟨[], [sampleFile]⟩).artifact ≠ none ∧
      (process_eod_data (fun _ => false)
          ⟨[], (process_eod_data (fun _ => false)
              ⟨[], [sampleFile]⟩).temp_files⟩).artifact ≠ none := by
  decide

/-- C2 (amended): `process_eod_data` deletes no consumed temporary file —
afterwards `TEMP_DATA_DIR` holds exactly the files it scanned (the
pre-existing ones plus the final flush of a nonempty buffer); consequently
a second call with an empty buffer and no new files reprocesses the same
files and returns the same outcome, recreating (overwriting) the
FinalArtifact rather than producing none. -/
theorem c2_temp_files_persist_amended (fails : Nat → Bool) (inp : EodInput) :
    (process_eod_data fails inp).temp_files =
        inp.temp_files ++ finalFlushFiles inp.buffer ∧
      (inp.buffer = [] →
        process_eod_data fails
            { buffer := []
              temp_files := (process_eod_data fails inp).temp_files } =
          process_eod_data fails inp) := by
  constructor
  · by_cases h : (inp.temp_files ++ finalFlushFiles inp.buffer).isEmpty <;>
      simp [process_eod_data, h]
  · intro hbuf
    obtain ⟨buf, tf⟩ := inp
    simp only at hbuf
    subst hbuf
    by_cases htf : tf.isEmpty <;>
      simp [process_eod_data, finalFlushFiles, htf]

theorem c2_temp_files_persist_witness :
    (process_eod_data (fun _ => false) ⟨[], [sampleFile]⟩).temp_files =
        [sampleFile] ++ finalFlushFiles [] ∧
      process_eod_data (fun _ => false)
          ⟨[], (process_eod_data (fun _ => false)
              ⟨[], [sampleFile]⟩).temp_files⟩ =
        process_eod_data (fun _ => false) ⟨[], [sampleFile]⟩ :=
  ⟨(c2_temp_files_persist_amended (fun _ => false) ⟨[], [sampleFile]⟩).1,
    (c2_temp_files_persist_amended (fun _ => false) ⟨[], [sampleFile]⟩).2 rfl⟩

/-- C5: a failure while reading a temporary file (a corrupt file) or while
processing one chunk (the per-chunk exception, `fails i`) only silences
that file or chunk — the run continues, and the FinalArtifact's rows are
exactly the concatenation, in chunk order, of the cleaned rows of every
chunk that processed successfully; in particular the cleaned rows of each
successful chunk appear contiguously in the output. -/
theorem c5_chunk_isolation (fails : Nat → Bool) (inp : EodInput) :
    optRows (process_eod_data fails inp).artifact =
      (((chunksOf CHUNK_SIZE
            (inp.temp_files ++ finalFlushFiles inp.buffer)).enum).map
          (fun p => chunkContribution fails p.1 p.2)).flatten ∧
      ∀ i cf,
        (i, cf) ∈ (chunksOf CHUNK_SIZE
            (inp.temp_files ++ finalFlushFiles inp.buffer)).enum →
        fails i = false → (readRows cf).isEmpty = false →
        (process_chunk (readRows cf)).IsInfix
          (optRows (process_eod_data fails inp).artifact) := by
  have hmain : optRows (process_eod_data fails inp).artifact =
      (((chunksOf CHUNK_SIZE
            (inp.temp_files ++ finalFlushFiles inp.buffer)).enum).map
          (fun p => chunkContribution fails p.1 p.2)).flatten := by
    by_cases h : (inp.temp_files ++ finalFlushFiles inp.buffer).isEmpty
    · have hnil : inp.temp_files ++ finalFlushFiles inp.buffer = [] := by
        simpa using h
      simp [process_eod_data, h, hnil, chunksOf, chunksGo, optRows]
    · simp only [process_eod_data, h, Bool.false_eq_true, if_false]
      rw [eodLoop_eq]
      simp [optRows]
  refine ⟨hmain, ?_⟩
  intro i cf hmem hf hne
  have hcontrib : chunkContribution fails i cf = process_chunk (readRows cf) := by
    simp [chunkContribution, hne, hf]
  rw [hmain, ← hcontrib]
  exact List.infix_of_mem_flatten (List.mem_map.mpr ⟨(i, cf), hmem, rfl⟩)

theorem c5_chunk_isolation_witness :
    (process_chunk (readRows [sampleFile])).IsInfix
      (optRows
        (process_eod_data (fun _ => false) ⟨[], [sampleFile]⟩).artifact) :=
  (c5_chunk_isolation (fun _ => false) ⟨[], [sampleFile]⟩).2 0 [sampleFile]
    (by decide) rfl (by decide)

/-- C9: one `on_ticks` invocation takes the capture timestamp once, before
iterating the delivered batch, so every record it appends carries that same
timestamp; and since two identical raw payloads in one batch map to the
same record, the deduplication stage of the consolidation keeps exactly one
copy of that record. -/
theorem c9_single_timestamp_per_batch (now : Nat)
    (mapping : Int → Option InstrumentDetails) (ticks : List KTick)
    (buffer : List RawRow) :
    (on_ticks now mapping ticks buffer).drop buffer.length =
        ticks.map (processTick now mapping) ∧
      (∀ r ∈ (on_ticks now mapping ticks buffer).drop buffer.length,
        r.timestamp = now) ∧
      ∀ t ∈ ticks,
        (dedup_sorted (ticks.map (processTick now mapping))).count
            (localizeRow (processTick now mapping t)) = 1 := by
  have hdrop : (on_ticks now mapping ticks buffer).drop buffer.length =
      ticks.map (processTick now mapping) := by
    simp [on_ticks]
  refine ⟨hdrop, ?_, ?_⟩
  · intro r hr
    rw [hdrop] at hr
    obtain ⟨t, -, rfl⟩ := List.mem_map.mp hr
    rfl
  · intro t ht
    have hmem : localizeRow (processTick now mapping t) ∈
        dedup_sorted (ticks.map (processTick now mapping)) := by
      rw [dedup_sorted, mem_drop_duplicates, List.mem_insertionSort]
      exact List.mem_map_of_mem localizeRow
        (List.mem_map_of_mem (processTick now mapping) ht)
    exact List.count_eq_one_of_mem (nodup_drop_duplicates _) hmem

/-- A concrete raw tick payload. -/
def sampleKTick : KTick :=
  { instrument_token := 1001
    last_price := RawVal.num 100
    ohlc_open := RawVal.num 0
    ohlc_high := RawVal.num 0
    ohlc_low := RawVal.num 0
    ohlc_close := RawVal.num 0
    volume := RawVal.num 10
    oi := RawVal.missing
    depth_buy := ""
    depth_sell := "" }

theorem c9_single_timestamp_witness :
    (processTick 7 (fun _ => none) sampleKTick).timestamp = 7 ∧
      (dedup_sorted ([sampleKTick, sampleKTick].map
            (processTick 7 (fun _ => none)))).count
          (localizeRow (processTick 7 (fun _ => none) sampleKTick)) = 1 :=
  ⟨(c9_single_timestamp_per_batch 7 (fun _ => none)
        [sampleKTick, sampleKTick] []).2.1
      (processTick 7 (fun _ => none) sampleKTick) (by decide),
    (c9_single_timestamp_per_batch 7 (fun _ => none)
        [sampleKTick, sampleKTick] []).2.2 sampleKTick (by decide)⟩
